import Mathlib

/-!
Verification development for the SummaryForDoc repository.

The redaction engine lives in src/pii_remover.py: an ordered sequence of
regex-substitution passes (dates, addresses, phone numbers, medical ids,
names) over a text, accumulating a replacement log.  The interactive
search/edit session lives in main.py (`_on_search`, `_on_prev_search`,
`_on_next_search`, `_on_delete_current_match`).

Text is modelled as a list of Unicode codepoints (Lean `Char`), matching
Python's `str` codepoint semantics.  Each regex is embedded as an explicit
leftmost greedy matcher with backtracking, built from combinators that
return the number of consumed codepoints; `re.sub` is embedded as a
left-to-right non-overlapping scan that never rescans replacement text.
-/

/-- A Python string literal as a list of codepoints. -/
def cs (s : String) : List Char := s.data

/-- A replacement-log event: (category label, original matched value),
mirroring the tuples appended to `self.replacement_log`. -/
abbrev Ev := String × String

/-! ### Character classes used by the patterns of pii_remover.py.

Python `re` classes over `str` are Unicode-aware; we model exactly the
ranges written in the source plus, for `\d`, `\s` and `\w`, the standard
ASCII members together with the Japanese-script members that can occur in
this corpus (fullwidth digits, ideographic space, kana, kanji). -/

/-- `\d`: ASCII digits and fullwidth digits. -/
def isDigitCh (c : Char) : Bool :=
  (0x30 ≤ c.toNat && c.toNat ≤ 0x39) || (0xFF10 ≤ c.toNat && c.toNat ≤ 0xFF19)

/-- ASCII `0-9` as written literally in a class (not `\d`). -/
def isAsciiDigit (c : Char) : Bool := 0x30 ≤ c.toNat && c.toNat ≤ 0x39

/-- `[一-龯]` (CJK ideographs U+4E00..U+9FAF). -/
def isKanji (c : Char) : Bool := 0x4E00 ≤ c.toNat && c.toNat ≤ 0x9FAF

/-- `[ぁ-ん]` (hiragana U+3041..U+3093). -/
def isHira (c : Char) : Bool := 0x3041 ≤ c.toNat && c.toNat ≤ 0x3093

/-- `[ァ-ヴ]` (katakana U+30A1..U+30F4). -/
def isKata (c : Char) : Bool := 0x30A1 ≤ c.toNat && c.toNat ≤ 0x30F4

/-- `\s`: whitespace (ASCII whitespace and the ideographic space U+3000). -/
def isSpaceCh (c : Char) : Bool :=
  c == ' ' || c == '\t' || c == '\n' || c == '\r' ||
  c == '\x0b' || c == '\x0c' || c == '　'

/-- The delimiter class `[：:\s]` used after every label in the source. -/
def isColonSp (c : Char) : Bool := c == '：' || c == ':' || isSpaceCh c

/-- `\w` (word characters): ASCII alphanumerics and underscore plus the
Japanese letters and fullwidth digits present in this corpus. -/
def isWordCh (c : Char) : Bool :=
  (0x30 ≤ c.toNat && c.toNat ≤ 0x39) || (0x41 ≤ c.toNat && c.toNat ≤ 0x5A) ||
  (0x61 ≤ c.toNat && c.toNat ≤ 0x7A) || c == '_' ||
  isHira c || isKata c || c == 'ー' || isKanji c ||
  (0xFF10 ≤ c.toNat && c.toNat ≤ 0xFF19)

/-- `[^\n]`: any codepoint other than a newline. -/
def isNotNL (c : Char) : Bool := c != '\n'

/-- `[年/\-]`, first separator of the western date pattern. -/
def isSepYear (c : Char) : Bool := c == '年' || c == '/' || c == '-'

/-- `[月/\-]`, second separator of the western date pattern. -/
def isSepMonth (c : Char) : Bool := c == '月' || c == '/' || c == '-'

/-- `[明大昭平令和]`, era kanji of the Japanese-era date pattern. -/
def isEraKanji (c : Char) : Bool :=
  c == '明' || c == '大' || c == '昭' || c == '平' || c == '令' || c == '和'

/-- `[年\.]`. -/
def isSepYearDot (c : Char) : Bool := c == '年' || c == '.'

/-- `[月\.]`. -/
def isSepMonthDot (c : Char) : Bool := c == '月' || c == '.'

/-- `[MTSHR]`, Latin era letters. -/
def isEraLetter (c : Char) : Bool :=
  c == 'M' || c == 'T' || c == 'S' || c == 'H' || c == 'R'

/-- `[\.\/]`. -/
def isDotSlash (c : Char) : Bool := c == '.' || c == '/'

/-- `[\d年月日明大昭平令和MTSHR\.\/\-]`, the run after the 生年月日 label. -/
def isDateRunCh (c : Char) : Bool :=
  isDigitCh c || c == '年' || c == '月' || c == '日' || isEraKanji c ||
  isEraLetter c || c == '.' || c == '/' || c == '-'

/-- `[都道府県]`. -/
def isPrefUnit (c : Char) : Bool :=
  c == '都' || c == '道' || c == '府' || c == '県'

/-- `[市区町村郡]`. -/
def isCityUnit (c : Char) : Bool :=
  c == '市' || c == '区' || c == '町' || c == '村' || c == '郡'

/-- `[一-龯ぁ-んァ-ヴー]`, the place-name run of the address pattern. -/
def isPlaceCh (c : Char) : Bool := isKanji c || isHira c || isKata c || c == 'ー'

/-- `[一-龯ぁ-んァ-ヴー0-9\-ー]`, the trailing run of the address pattern. -/
def isPlaceTailCh (c : Char) : Bool :=
  isKanji c || isHira c || isKata c || c == 'ー' || isAsciiDigit c || c == '-'

/-- `[一-龯ァ-ヴー\s]`, the candidate-name class of the explicit name label. -/
def isNameCls (c : Char) : Bool := isKanji c || isKata c || c == 'ー' || isSpaceCh c

/-- `[\w\-]`, the value run of the medical-id patterns. -/
def isWordHy (c : Char) : Bool := isWordCh c || c == '-'

/-! ### Matcher combinators.

A matcher piece takes the remaining text and returns the total number of
codepoints consumed by this piece and the rest of the pattern (its
continuation `k`), or `none`.  Greedy quantifiers try the largest repeat
count first and backtrack downwards, exactly as Python `re` does for the
class quantifiers appearing in this source. -/

/-- Length of the maximal leading run of codepoints satisfying `p`. -/
def countLead (p : Char → Bool) : List Char → Nat
  | [] => 0
  | c :: t => if p c then countLead p t + 1 else 0

/-- Try repeat counts `lo + e`, `lo + e - 1`, ..., `lo` for a class
quantifier whose body has already been checked to hold on the first
`lo + e` codepoints of `s`; `k` matches the rest of the pattern. -/
def tryCounts (k : List Char → Option Nat) (s : List Char) (lo : Nat) :
    Nat → Option Nat
  | 0 => (k (s.drop lo)).map (fun m => lo + m)
  | e + 1 =>
    match k (s.drop (lo + e + 1)) with
    | some m => some (lo + e + 1 + m)
    | none => tryCounts k s lo e

/-- Greedy bounded quantifier `p{lo,hi}` followed by `k`. -/
def quantK (p : Char → Bool) (lo hi : Nat) (k : List Char → Option Nat)
    (s : List Char) : Option Nat :=
  let m := min hi (countLead p s)
  if m < lo then none else tryCounts k s lo (m - lo)

/-- Greedy unbounded quantifier `p{lo,}` (`*` is `lo = 0`, `+` is `lo = 1`)
followed by `k`. -/
def quantU (p : Char → Bool) (lo : Nat) (k : List Char → Option Nat)
    (s : List Char) : Option Nat :=
  let m := countLead p s
  if m < lo then none else tryCounts k s lo (m - lo)

/-- A single codepoint of class `p` followed by `k`. -/
def classK (p : Char → Bool) (k : List Char → Option Nat) :
    List Char → Option Nat
  | [] => none
  | c :: t => if p c then (k t).map (fun m => m + 1) else none

/-- A literal codepoint sequence `w` followed by `k`. -/
def litK (w : List Char) (k : List Char → Option Nat) (s : List Char) :
    Option Nat :=
  if w.isPrefixOf s then (k (s.drop w.length)).map (fun m => w.length + m)
  else none

/-- Greedy optional literal `w?` followed by `k`. -/
def optLitK (w : List Char) (k : List Char → Option Nat) (s : List Char) :
    Option Nat :=
  match litK w k s with
  | some n => some n
  | none => k s

/-- Ordered alternation of two matchers. -/
def alt2 (m1 m2 : List Char → Option Nat) (s : List Char) : Option Nat :=
  match m1 s with
  | some n => some n
  | none => m2 s

/-- End of pattern: consume nothing. -/
def endK : List Char → Option Nat := fun _ => some 0

/-! ### The re.sub embedding.

`reSubF` scans the text left to right; at each position it tries the
matcher; on a (nonempty) match it consumes it, emits the replacement text
returned by the replacement function and appends its log events, and
resumes immediately after the match (replacement text is never rescanned,
as in Python `re.sub`).  The matcher may carry a capture value of type `A`
(used by the name pattern's group 1).  Fuel bounds the recursion and is
instantiated with the text length, which every step strictly decreases. -/

def reSubF {A : Type} (m : List Char → Option (Nat × A))
    (rf : List Char → A → List Char × List Ev) :
    Nat → List Char → List Char × List Ev
  | 0, s => (s, [])
  | _ + 1, [] => ([], [])
  | fuel + 1, c :: t =>
    match m (c :: t) with
    | some (n + 1, a) =>
      let r := rf ((c :: t).take (n + 1)) a
      let rest := reSubF m rf fuel ((c :: t).drop (n + 1))
      (r.1 ++ rest.1, r.2 ++ rest.2)
    | _ =>
      let rest := reSubF m rf fuel t
      (c :: rest.1, rest.2)

/-- One `re.sub(pattern, repl, s)` pass. -/
def reSub {A : Type} (m : List Char → Option (Nat × A))
    (rf : List Char → A → List Char × List Ev) (s : List Char) :
    List Char × List Ev :=
  reSubF m rf s.length s

/-- Wrap a capture-free matcher for `reSub`. -/
def simpleM (f : List Char → Option Nat) (s : List Char) :
    Option (Nat × Unit) :=
  (f s).map (fun n => (n, ()))

/-- The replacement closure `replace_with_log` shared by the date, address
and id passes: log `(label, matched)` and substitute the fixed placeholder. -/
def plainRf (label : String) (pl : List Char) (matched : List Char)
    (_ : Unit) : List Char × List Ev :=
  (pl, [(label, String.mk matched)])

/-! ### remove_birthdates: the four date patterns, applied in order. -/

/-- `\d{4}[年/\-]\d{1,2}[月/\-]\d{1,2}日?` -/
def dateP1 : List Char → Option Nat :=
  quantK isDigitCh 4 4 (classK isSepYear (quantK isDigitCh 1 2 (classK
    isSepMonth (quantK isDigitCh 1 2 (optLitK (cs "日") endK)))))

/-- `[明大昭平令和]{1,2}\d{1,3}[年\.]\d{1,2}[月\.]\d{1,2}日?` -/
def dateP2 : List Char → Option Nat :=
  quantK isEraKanji 1 2 (quantK isDigitCh 1 3 (classK isSepYearDot (quantK
    isDigitCh 1 2 (classK isSepMonthDot (quantK isDigitCh 1 2 (optLitK
    (cs "日") endK))))))

/-- `[MTSHR]\d{1,3}[\.\/]\d{1,2}[\.\/]\d{1,2}` -/
def dateP3 : List Char → Option Nat :=
  classK isEraLetter (quantK isDigitCh 1 3 (classK isDotSlash (quantK
    isDigitCh 1 2 (classK isDotSlash (quantK isDigitCh 1 2 endK)))))

/-- `生年月日[：:\s]*[\d年月日明大昭平令和MTSHR\.\/\-]{6,}` -/
def dateP4 : List Char → Option Nat :=
  litK (cs "生年月日") (quantU isColonSp 0 (quantU isDateRunCh 6 endK))

def remove_birthdates (text : List Char) : List Char × List Ev :=
  let r1 := reSub (simpleM dateP1) (plainRf "生年月日" (cs "[生年月日]")) text
  let r2 := reSub (simpleM dateP2) (plainRf "生年月日" (cs "[生年月日]")) r1.1
  let r3 := reSub (simpleM dateP3) (plainRf "生年月日" (cs "[生年月日]")) r2.1
  let r4 := reSub (simpleM dateP4) (plainRf "生年月日" (cs "[生年月日]")) r3.1
  (r4.1, r1.2 ++ r2.2 ++ r3.2 ++ r4.2)

/-! ### remove_addresses: postal code, prefecture compound, 住所 label. -/

/-- `〒?\d{3}-?\d{4}` -/
def postalP : List Char → Option Nat :=
  optLitK (cs "〒") (quantK isDigitCh 3 3 (optLitK (cs "-") (quantK
    isDigitCh 4 4 endK)))

/-- `[都道府県]{1}[一-龯ぁ-んァ-ヴー]+[市区町村郡]{1}[一-龯ぁ-んァ-ヴー0-9\-ー]+` -/
def prefP : List Char → Option Nat :=
  classK isPrefUnit (quantU isPlaceCh 1 (classK isCityUnit (quantU
    isPlaceTailCh 1 endK)))

/-- `住所[：:\s]*[^\n]{5,50}` -/
def addrLabelP : List Char → Option Nat :=
  litK (cs "住所") (quantU isColonSp 0 (quantK isNotNL 5 50 endK))

def remove_addresses (text : List Char) : List Char × List Ev :=
  let r1 := reSub (simpleM postalP) (plainRf "郵便番号" (cs "[郵便番号]")) text
  let r2 := reSub (simpleM prefP) (plainRf "住所" (cs "[住所]")) r1.1
  let r3 := reSub (simpleM addrLabelP) (plainRf "住所" (cs "[住所]")) r2.1
  (r3.1, r1.2 ++ r2.2 ++ r3.2)

/-! ### remove_phone_numbers: three patterns, each guarded by the
date-like check `re.match(r'\d{1,2}-\d{1,2}-\d{1,2}', matched)`. -/

/-- `\d{2,4}-\d{2,4}-\d{4}` -/
def phoneP1 : List Char → Option Nat :=
  quantK isDigitCh 2 4 (litK (cs "-") (quantK isDigitCh 2 4 (litK (cs "-")
    (quantK isDigitCh 4 4 endK))))

/-- `\d{10,11}` -/
def phoneP2 : List Char → Option Nat :=
  quantK isDigitCh 10 11 endK

/-- `\(\d{2,4}\)\s*\d{2,4}-\d{4}` -/
def phoneP3 : List Char → Option Nat :=
  litK (cs "(") (quantK isDigitCh 2 4 (litK (cs ")") (quantU isSpaceCh 0
    (quantK isDigitCh 2 4 (litK (cs "-") (quantK isDigitCh 4 4 endK))))))

/-- `re.match(r'\d{1,2}-\d{1,2}-\d{1,2}', matched)`: anchored at the start
of the matched text, a prefix match (not a fullmatch). -/
def dateLikeGuard (matched : List Char) : Bool :=
  (quantK isDigitCh 1 2 (litK (cs "-") (quantK isDigitCh 1 2 (litK (cs "-")
    (quantK isDigitCh 1 2 endK)))) matched).isSome

/-- The phone pass replacement closure: matches that look date-like are
returned unchanged and unlogged; the rest become the phone placeholder. -/
def phoneRf (matched : List Char) (_ : Unit) : List Char × List Ev :=
  if dateLikeGuard matched then (matched, [])
  else (cs "[電話番号]", [("電話番号", String.mk matched)])

def remove_phone_numbers (text : List Char) : List Char × List Ev :=
  let r1 := reSub (simpleM phoneP1) phoneRf text
  let r2 := reSub (simpleM phoneP2) phoneRf r1.1
  let r3 := reSub (simpleM phoneP3) phoneRf r2.1
  (r3.1, r1.2 ++ r2.2 ++ r3.2)

/-! ### remove_medical_ids. -/

/-- `(?:診察券|患者ID|カルテ番号)[：:\s]*[\w\-]+` -/
def idP1 : List Char → Option Nat :=
  alt2 (litK (cs "診察券") (quantU isColonSp 0 (quantU isWordHy 1 endK)))
    (alt2 (litK (cs "患者ID") (quantU isColonSp 0 (quantU isWordHy 1 endK)))
      (litK (cs "カルテ番号") (quantU isColonSp 0 (quantU isWordHy 1 endK))))

/-- `ID[：:\s]*[\w\-]+` -/
def idP2 : List Char → Option Nat :=
  litK (cs "ID") (quantU isColonSp 0 (quantU isWordHy 1 endK))

def remove_medical_ids (text : List Char) : List Char × List Ev :=
  let r1 := reSub (simpleM idP1) (plainRf "ID" (cs "[ID]")) text
  let r2 := reSub (simpleM idP2) (plainRf "ID" (cs "[ID]")) r1.1
  (r2.1, r1.2 ++ r2.2)

/-! ### remove_names.

The source defines three name patterns but wires only pattern 3, the
explicit label form `(?:患者)?氏名[：:\s]*([一-龯ァ-ヴー\s]{2,10})`, into the
pass: the substitution for pattern 1 (bare kanji surname+given name) is
commented out and pattern 2 (bare katakana) is never substituted, so
`remove_names` performs exactly one `re.sub` with pattern 3. -/

/-- The protected clinical vocabulary `PIIRemover.MEDICAL_TERMS`. -/
def MEDICAL_TERMS : List String :=
  ["統合失調症", "双極性障害", "うつ病", "不安障害", "適応障害",
   "認知症", "てんかん", "パーキンソン病", "糖尿病", "高血圧",
   "脂質異常症", "気管支喘息", "慢性閉塞性肺疾患", "心不全",
   "狭心症", "心筋梗塞", "脳梗塞", "脳出血", "くも膜下出血",
   "頭痛", "発熱", "咳嗽", "呼吸困難", "胸痛", "腹痛",
   "幻聴", "妄想", "幻覚", "被害念慮", "抑うつ", "不安",
   "リスペリドン", "オランザピン", "クエチアピン", "アリピプラゾール",
   "パリペリドン", "ハロペリドール", "レボメプロマジン",
   "リチウム", "バルプロ酸", "カルバマゼピン", "ラモトリギン",
   "フルボキサミン", "パロキセチン", "セルトラリン", "エスシタロプラム",
   "デュロキセチン", "ミルタザピン", "ボルチオキセチン",
   "ロラゼパム", "クロナゼパム", "ジアゼパム", "エチゾラム",
   "医師", "看護師", "薬剤師", "患者", "家族", "母", "父"]

/-- Python `pat in s` on strings: `pat` occurs contiguously in `s`. -/
def occursIn (pat : List Char) : List Char → Bool
  | [] => pat.isPrefixOf []
  | c :: t => pat.isPrefixOf (c :: t) || occursIn pat t

/-- `is_medical_term`: true when any protected term occurs anywhere in the
candidate (Python `term in match_text`, substring containment). -/
def is_medical_term (l : List Char) : Bool :=
  MEDICAL_TERMS.any (fun t => occursIn t.data l)

/-- Python `str.strip()`: drop whitespace from both ends. -/
def pyStrip (l : List Char) : List Char :=
  ((l.dropWhile isSpaceCh).reverse.dropWhile isSpaceCh).reverse

/-- Python `str.replace(pat, repl)`: replace every non-overlapping
occurrence, scanning left to right.  (Python's behaviour on an empty `pat`
— inserting `repl` everywhere — is not modelled; the callers below only
reach this with a nonempty captured name.) -/
def replaceAllF (pat repl : List Char) : Nat → List Char → List Char
  | 0, s => s
  | _ + 1, [] => []
  | fuel + 1, c :: t =>
    if pat.isPrefixOf (c :: t) && !pat.isEmpty then
      repl ++ replaceAllF pat repl fuel ((c :: t).drop pat.length)
    else c :: replaceAllF pat repl fuel t

def replaceAll (s pat repl : List Char) : List Char :=
  replaceAllF pat repl s.length s

/-- The backtracking tail of pattern 3 after the `氏名` literal:
`[：:\s]*([一-龯ァ-ヴー\s]{2,10})`.  `n` is the current repeat count of
the delimiter star, tried greedily downwards; the capture group then
greedily takes up to 10 class codepoints and needs at least 2. -/
def matchNameAt (s : List Char) (n : Nat) : Option (Nat × List Char) :=
  let r := s.drop n
  let g := min 10 (countLead isNameCls r)
  if 2 ≤ g then some (n + g, r.take g) else none

def matchNameTail (s : List Char) : Nat → Option (Nat × List Char)
  | 0 => matchNameAt s 0
  | n + 1 =>
    match matchNameAt s (n + 1) with
    | some res => some res
    | none => matchNameTail s n

def matchNameCore (s : List Char) : Option (Nat × List Char) :=
  matchNameTail s (countLead isColonSp s)

/-- `氏名[：:\s]*([一-龯ァ-ヴー\s]{2,10})` (the label form without 患者). -/
def matchNamePlain (s : List Char) : Option (Nat × List Char) :=
  if (cs "氏名").isPrefixOf s then
    match matchNameCore (s.drop 2) with
    | some (n, g) => some (2 + n, g)
    | none => none
  else none

/-- Pattern 3, `(?:患者)?氏名[：:\s]*([一-龯ァ-ヴー\s]{2,10})`: the optional
`患者` is tried greedily first, exactly as the regex engine does. -/
def matchName (s : List Char) : Option (Nat × List Char) :=
  if (cs "患者氏名").isPrefixOf s then
    match matchNameCore (s.drop 4) with
    | some (n, g) => some (4 + n, g)
    | none => matchNamePlain s
  else matchNamePlain s

/-- `replace_explicit_name`: strip the captured candidate; if it contains a
protected term, return the whole match unchanged and log nothing; else log
`('氏名', name)` and replace every occurrence of the candidate inside the
whole matched phrase with `[氏名]` (Python `match.group(0).replace(...)`). -/
def replace_explicit_name (matched : List Char) (g : List Char) :
    List Char × List Ev :=
  let name := pyStrip g
  if is_medical_term name then (matched, [])
  else (replaceAll matched name (cs "[氏名]"), [("氏名", String.mk name)])

def remove_names (text : List Char) : List Char × List Ev :=
  reSub matchName replace_explicit_name text

/-! ### clean_text and the summary report. -/

/-- `clean_text`: reset the log, then run the passes in the fixed order
dates → addresses → phones → ids → names, each over the previous output;
return the final text together with the accumulated log. -/
def clean_text (text : List Char) : List Char × List Ev :=
  let r1 := remove_birthdates text
  let r2 := remove_addresses r1.1
  let r3 := remove_phone_numbers r2.1
  let r4 := remove_medical_ids r3.1
  let r5 := remove_names r4.1
  (r5.1, r1.2 ++ r2.2 ++ r3.2 ++ r4.2 ++ r5.2)

/-- Append an event to the insertion-ordered per-category table, as the
Python dict built by `get_summary_report` does. -/
def addEv (acc : List (String × List String)) (e : Ev) :
    List (String × List String) :=
  if acc.any (fun p => p.1 == e.1) then
    acc.map (fun p => if p.1 == e.1 then (p.1, p.2 ++ [e.2]) else p)
  else acc ++ [(e.1, [e.2])]

def groupCats (log : List Ev) : List (String × List String) :=
  log.foldl addEv []

/-- Number the first examples of a category `1.`, `2.`, ... -/
def numberLines (i : Nat) : List String → List String
  | [] => []
  | v :: t => ("  " ++ toString i ++ ". " ++ v) :: numberLines (i + 1) t

/-- The lines emitted for one category: the count header, up to 3 example
values, and the remainder note when more than 3 events were logged. -/
def renderCat (c : String) (vs : List String) : List String :=
  ("\n" ++ c ++ ": " ++ toString vs.length ++ "件") ::
    (numberLines 1 (vs.take 3) ++
      (if 3 < vs.length then ["  ... 他 " ++ toString (vs.length - 3) ++ "件"]
       else []))

/-- `get_summary_report`, as a function of the replacement log. -/
def get_summary_report (log : List Ev) : String :=
  if log = [] then "個人情報は検出されませんでした。"
  else
    String.intercalate "\n" ("=== 削除した個人情報 ===" ::
      (groupCats log).foldr (fun p acc => renderCat p.1 p.2 ++ acc) [])

/-! ### The interactive search/edit session (main.py).

State relevant to the handlers: the match list `self.search_results`
(codepoint offsets into the text field's value), the cursor
`self.current_search_index`, and the result message, modelled here as an
abstract status.  Offsets are kept as integers because
`_on_delete_current_match` shifts them with Python integer subtraction. -/

inductive SStatus
  | idle
  | emptyQueryError
  | notFoundMsg
  | showing
  | deletedShowing
  | allDeleted
  | noResultsError
deriving DecidableEq, Repr

structure UIState where
  results : List Int
  cursor : Nat
  status : SStatus
deriving DecidableEq, Repr

/-- First occurrence of `pat` in `s`, as an offset into `s` (Python
`str.find` restricted to the scan suffix). -/
def findIdx0 (pat : List Char) : List Char → Option Nat
  | [] => if pat.isPrefixOf ([] : List Char) then some 0 else none
  | c :: t =>
    if pat.isPrefixOf (c :: t) then some 0
    else (findIdx0 pat t).map (fun n => n + 1)

/-- `text.find(pat, start)` (for nonempty `pat`). -/
def pyFind (text pat : List Char) (start : Nat) : Option Nat :=
  (findIdx0 pat (text.drop start)).map (fun n => n + start)

/-- The collection loop of `_on_search`: repeatedly `find` from `start`,
record the hit, and resume one codepoint past the hit's start.  Fuel bounds
the recursion; `start` strictly increases each round. -/
def searchLoopF (text pat : List Char) : Nat → Nat → List Nat
  | 0, _ => []
  | fuel + 1, start =>
    match pyFind text pat start with
    | none => []
    | some p => p :: searchLoopF text pat fuel (p + 1)

def searchAll (text pat : List Char) : List Nat :=
  searchLoopF text pat (text.length + 1) 0

/-- `_on_search`: an empty query is rejected with an error message before
any scan, leaving the match list and cursor untouched; otherwise the match
list is rebuilt, and on at least one hit the cursor moves to the first. -/
def on_search (st : UIState) (text query : List Char) : UIState :=
  if query = [] then { st with status := .emptyQueryError }
  else
    let l := (searchAll text query).map (fun n => (n : Int))
    if l = [] then { st with results := [], status := .notFoundMsg }
    else { st with results := l, cursor := 0, status := .showing }

/-- `_on_next_search`: `(cursor + 1) % len(results)`, no-op when empty. -/
def on_next_search (st : UIState) : UIState :=
  if st.results = [] then st
  else { st with cursor := (st.cursor + 1) % st.results.length,
                 status := .showing }

/-- `_on_prev_search`: `(cursor - 1) % len(results)`, no-op when empty.
For a natural-number cursor below `len`, Python's nonnegative modulo
`(cursor - 1) % n` equals `(cursor + (n - 1)) % n`. -/
def on_prev_search (st : UIState) : UIState :=
  if st.results = [] then st
  else { st with cursor := (st.cursor + (st.results.length - 1)) % st.results.length,
                 status := .showing }

/-- `_on_delete_current_match`: with no results, report an error and change
nothing else; otherwise remove `len(query)` codepoints of the text at the
current match's offset, drop that match entry, subtract `len(query)` from
every entry at or after the cursor (Python mutates indices `cursor ..`
after the `pop`), clamp the cursor to the last valid index when it fell off
the end, and report the exhausted state when the list became empty. -/
def on_delete_current_match (st : UIState) (text query : List Char) :
    List Char × UIState :=
  if st.results = [] then (text, { st with status := .noResultsError })
  else
    let L : Int := query.length
    let pos : Int := st.results.getD st.cursor 0
    let newText := text.take pos.toNat ++ text.drop (pos.toNat + query.length)
    let popped := st.results.eraseIdx st.cursor
    let shifted := popped.take st.cursor ++ (popped.drop st.cursor).map (fun o => o - L)
    if shifted = [] then (newText, { st with results := [], status := .allDeleted })
    else
      let c2 := if shifted.length ≤ st.cursor then shifted.length - 1 else st.cursor
      (newText, { results := shifted, cursor := c2, status := .deletedShowing })

/-- Modelled from the spec's words for the phone guard claim: the shape
"exactly 1-2 digits, hyphen, 1-2 digits, hyphen, 1-2 digits" as a full
match of the whole string (nothing left over). -/
def dateShapeExact (s : List Char) : Bool :=
  (quantK isDigitCh 1 2 (litK (cs "-") (quantK isDigitCh 1 2 (litK (cs "-")
    (quantK isDigitCh 1 2 (fun r => if r = [] then some 0 else none))))) s).isSome

/-! ### Basic lemmas about the matcher combinators and the scan. -/

theorem countLead_le (p : Char → Bool) : ∀ l : List Char, countLead p l ≤ l.length
  | [] => Nat.le_refl 0
  | c :: t => by
    simp only [countLead]
    split
    · exact Nat.succ_le_succ (countLead_le p t)
    · exact Nat.zero_le _

theorem countLead_of_all {p : Char → Bool} {l : List Char}
    (h : ∀ c ∈ l, p c = true) : countLead p l = l.length := by
  induction l with
  | nil => rfl
  | cons c t ih =>
    simp only [countLead, h c (List.mem_cons_self c t), if_true]
    rw [ih (fun x hx => h x (List.mem_cons_of_mem c hx))]
    rfl

theorem countLead_append_of_all {p : Char → Bool} {a r : List Char}
    (h : ∀ c ∈ a, p c = true) :
    countLead p (a ++ r) = a.length + countLead p r := by
  induction a with
  | nil => simp
  | cons c t ih =>
    simp only [List.cons_append, countLead, h c (List.mem_cons_self c t), if_true,
      List.append_eq]
    rw [ih (fun x hx => h x (List.mem_cons_of_mem c hx))]
    simp only [List.length_cons]
    omega

theorem countLead_cons_neg {p : Char → Bool} {c : Char} {t : List Char}
    (h : p c = false) : countLead p (c :: t) = 0 := by
  simp [countLead, h]

/-- Greedy success at the topmost repeat count. -/
theorem tryCounts_top {k : List Char → Option Nat} {s : List Char}
    {lo m : Nat} (e : Nat) (h : k (s.drop (lo + e)) = some m) :
    tryCounts k s lo e = some (lo + e + m) := by
  cases e with
  | zero =>
    rw [Nat.add_zero] at h
    simp [tryCounts, h]
  | succ e =>
    have h2 : k (s.drop (lo + e + 1)) = some m := h
    simp only [tryCounts, h2]
    rfl

theorem quantK_top {p : Char → Bool} {lo hi : Nat} {k : List Char → Option Nat}
    {s : List Char} {m : Nat} (hlo : lo ≤ min hi (countLead p s))
    (h : k (s.drop (min hi (countLead p s))) = some m) :
    quantK p lo hi k s = some (min hi (countLead p s) + m) := by
  unfold quantK
  have h2 : ¬ (min hi (countLead p s) < lo) := Nat.not_lt.mpr hlo
  simp only [h2, if_false]
  have e := tryCounts_top (min hi (countLead p s) - lo)
    (show k (s.drop (lo + (min hi (countLead p s) - lo))) = some m by
      rwa [Nat.add_sub_cancel' hlo])
  rwa [Nat.add_sub_cancel' hlo] at e

theorem quantK_none {p : Char → Bool} {lo hi : Nat} {k : List Char → Option Nat}
    {s : List Char} (h : min hi (countLead p s) < lo) :
    quantK p lo hi k s = none := by
  simp [quantK, h]

theorem quantU_top {p : Char → Bool} {lo : Nat} {k : List Char → Option Nat}
    {s : List Char} {m : Nat} (hlo : lo ≤ countLead p s)
    (h : k (s.drop (countLead p s)) = some m) :
    quantU p lo k s = some (countLead p s + m) := by
  unfold quantU
  have h2 : ¬ (countLead p s < lo) := Nat.not_lt.mpr hlo
  simp only [h2, if_false]
  have e := tryCounts_top (countLead p s - lo)
    (show k (s.drop (lo + (countLead p s - lo))) = some m by
      rwa [Nat.add_sub_cancel' hlo])
  rwa [Nat.add_sub_cancel' hlo] at e

theorem quantU_none {p : Char → Bool} {lo : Nat} {k : List Char → Option Nat}
    {s : List Char} (h : countLead p s < lo) :
    quantU p lo k s = none := by
  simp [quantU, h]

theorem reSubF_nil {A : Type} (m : List Char → Option (Nat × A))
    (rf : List Char → A → List Char × List Ev) (fuel : Nat) :
    reSubF m rf fuel [] = ([], []) := by
  cases fuel <;> rfl

/-- A pass whose matcher fails on every suffix of the text is the identity
and logs nothing. -/
theorem reSubF_no_match {A : Type} {m : List Char → Option (Nat × A)}
    {rf : List Char → A → List Char × List Ev} :
    ∀ (fuel : Nat) (s : List Char), (∀ t, t <:+ s → m t = none) →
      reSubF m rf fuel s = (s, []) := by
  intro fuel
  induction fuel with
  | zero => intro s _; rfl
  | succ fuel ih =>
    intro s h
    cases s with
    | nil => rfl
    | cons c t =>
      have hm : m (c :: t) = none := h (c :: t) (List.suffix_refl _)
      simp only [reSubF, hm]
      rw [ih t (fun u hu => h u (hu.trans (List.suffix_cons c t)))]

theorem reSub_no_match {A : Type} {m : List Char → Option (Nat × A)}
    {rf : List Char → A → List Char × List Ev} {s : List Char}
    (h : ∀ t, t <:+ s → m t = none) : reSub m rf s = (s, []) :=
  reSubF_no_match s.length s h

/-- A match covering the whole text: the pass is exactly one replacement. -/
theorem reSub_full_match {A : Type} {m : List Char → Option (Nat × A)}
    {rf : List Char → A → List Char × List Ev} {c : Char} {t : List Char}
    {a : A} (hm : m (c :: t) = some ((c :: t).length, a)) :
    reSub m rf (c :: t) = rf (c :: t) a := by
  unfold reSub
  show reSubF m rf (t.length + 1) (c :: t) = rf (c :: t) a
  have hm2 : m (c :: t) = some (t.length + 1, a) := hm
  simp only [reSubF, hm2]
  have ht : List.take (t.length + 1) (c :: t) = c :: t := by simp
  have hd : List.drop (t.length + 1) (c :: t) = [] := by simp
  rw [ht, hd, reSubF_nil]
  simp

/-! ### Occurrence lemmas (Python `in` on strings). -/

theorem occursIn_of_isPrefixOf {pat s : List Char}
    (h : pat.isPrefixOf s = true) : occursIn pat s = true := by
  cases s with
  | nil => simpa [occursIn] using h
  | cons c t => simp [occursIn, h]

theorem occursIn_cons_of {pat : List Char} {c : Char} {t : List Char}
    (h : occursIn pat t = true) : occursIn pat (c :: t) = true := by
  simp [occursIn, h]

theorem occursIn_append_right {pat s : List Char} (a : List Char)
    (h : occursIn pat s = true) : occursIn pat (a ++ s) = true := by
  induction a with
  | nil => simpa using h
  | cons c t ih => exact occursIn_cons_of ih

theorem occursIn_of_suffix {pat s t : List Char} (hs : t <:+ s)
    (h : occursIn pat t = true) : occursIn pat s = true := by
  obtain ⟨a, rfl⟩ := hs
  exact occursIn_append_right a h

/-- The name pattern can only fire where the literal 氏名 occurs. -/
theorem matchName_none_of_no_label {s : List Char}
    (h : occursIn (cs "氏名") s = false) : matchName s = none := by
  have hpl : (cs "氏名").isPrefixOf s = false := by
    by_contra hc
    rw [occursIn_of_isPrefixOf (Bool.of_not_eq_false hc)] at h
    exact absurd h (by simp)
  have hpf : (cs "患者氏名").isPrefixOf s = false := by
    by_contra hc
    have hc2 : (cs "患者氏名").isPrefixOf s = true := Bool.of_not_eq_false hc
    rw [List.isPrefixOf_iff_prefix] at hc2
    obtain ⟨u, rfl⟩ := hc2
    have : occursIn (cs "氏名") (cs "患者氏名" ++ u) = true := by
      apply occursIn_cons_of
      apply occursIn_cons_of
      apply occursIn_of_isPrefixOf
      simp [cs, List.isPrefixOf]
    rw [this] at h
    exact absurd h (by simp)
  unfold matchName matchNamePlain
  simp [hpf, hpl]

/-! ### Claim theorems. -/

/-- C10: for every input text that does not contain the substring 氏名, the
name-removal step returns the text unchanged and appends no events — the
broad kanji/katakana matchers are present in the source but not applied,
so the only active name rule requires the literal 氏名 label. -/
theorem C10_remove_names_identity_without_label (text : List Char)
    (h : occursIn (cs "氏名") text = false) :
    remove_names text = (text, []) := by
  apply reSub_no_match
  intro t ht
  apply matchName_none_of_no_label
  by_contra hc
  rw [occursIn_of_suffix ht (Bool.of_not_eq_false hc)] at h
  exact absurd h (by simp)

/-- Witness for C10 at a concrete label-free clinical text. -/
theorem C10_witness :
    remove_names (cs "診断名：統合失調症。薬剤はリスペリドン。") =
      (cs "診断名：統合失調症。薬剤はリスペリドン。", []) :=
  C10_remove_names_identity_without_label _ (by decide)

/-- C1 (the code violates the claimed idempotence): running the pipeline a
second time on its own output is NOT event-free for the structured
categories.  On 住所： followed by 54 letters, the address-label rule caps
its match at 50 codepoints, the first pass emits 「[住所]aaaa」, and the
second pass re-matches 「住所]aaaa」 — the placeholder text itself combines
with the residue into a fresh address match, so the second run's log
contains an address-category event. -/
theorem C1_second_pass_not_empty :
    (clean_text ((clean_text (cs
        "住所：aaaaaaaaaaaaaaaaaaaaaaaaaaaaaaaaaaaaaaaaaaaaaaaaaaaaaa")).1)).2
      = [("住所", "住所]aaaa")] ∧
    ([("住所", "住所]aaaa")] : List Ev) ≠ [] := by
  constructor
  · decide
  · decide

/-- C6: the report builder returns the fixed no-detection message on an
empty log; on a nonempty log it groups events by category in first-seen
order and, per category, prints the count, at most 3 example values in
encounter order, and a remainder note exactly when more than 3 events were
logged — in particular 5 phone events yield 3 examples plus 「他 2件」. -/
theorem C6_summary_report :
    get_summary_report [] = "個人情報は検出されませんでした。" ∧
    (∀ v1 v2 v3 v4 v5 : String,
      get_summary_report [("電話番号", v1), ("電話番号", v2), ("電話番号", v3),
          ("電話番号", v4), ("電話番号", v5)] =
        String.intercalate "\n" ["=== 削除した個人情報 ===", "\n電話番号: 5件",
          "  1. " ++ v1, "  2. " ++ v2, "  3. " ++ v3, "  ... 他 2件"]) ∧
    (∀ x y z : String,
      get_summary_report [("氏名", x), ("住所", y), ("氏名", z)] =
        String.intercalate "\n" ["=== 削除した個人情報 ===", "\n氏名: 2件",
          "  1. " ++ x, "  2. " ++ z, "\n住所: 1件", "  1. " ++ y]) := by
  refine ⟨rfl, fun v1 v2 v3 v4 v5 => ?_, fun x y z => ?_⟩
  · have h1 : get_summary_report [("電話番号", v1), ("電話番号", v2),
        ("電話番号", v3), ("電話番号", v4), ("電話番号", v5)] =
        String.intercalate "\n" ["=== 削除した個人情報 ===",
          "\n" ++ "電話番号" ++ ": " ++ toString (5 : Nat) ++ "件",
          "  " ++ toString (1 : Nat) ++ ". " ++ v1,
          "  " ++ toString (2 : Nat) ++ ". " ++ v2,
          "  " ++ toString (3 : Nat) ++ ". " ++ v3,
          "  ... 他 " ++ toString (2 : Nat) ++ "件"] := rfl
    rw [h1]
    rfl
  · have h1 : get_summary_report [("氏名", x), ("住所", y), ("氏名", z)] =
        String.intercalate "\n" ["=== 削除した個人情報 ===",
          "\n" ++ "氏名" ++ ": " ++ toString (2 : Nat) ++ "件",
          "  " ++ toString (1 : Nat) ++ ". " ++ x,
          "  " ++ toString (2 : Nat) ++ ". " ++ z,
          "\n" ++ "住所" ++ ": " ++ toString (1 : Nat) ++ "件",
          "  " ++ toString (1 : Nat) ++ ". " ++ y] := rfl
    rw [h1]
    rfl

/-- C7: with an empty query, the search handler reports the empty-query
error before any scan and leaves the previous match list and cursor
untouched; a nonempty query never produces that error state — an empty or
exhausted result list yields the distinct not-found state instead. -/
theorem C7_empty_query_rejection :
    (∀ (st : UIState) (text : List Char),
      on_search st text [] = { st with status := .emptyQueryError }) ∧
    (∀ (st : UIState) (text query : List Char), query ≠ [] →
      (on_search st text query).status ≠ .emptyQueryError) := by
  constructor
  · intro st text
    rfl
  · intro st text query hq
    unfold on_search
    rw [if_neg hq]
    dsimp only
    split <;> simp

/-- Witness for C7 at concrete session states. -/
theorem C7_witness :
    on_search ⟨[3], 1, .showing⟩ (cs "abc") [] =
        { results := [3], cursor := 1, status := .emptyQueryError } ∧
      (on_search ⟨[9], 4, .showing⟩ (cs "xyz") (cs "q")).status ≠
        .emptyQueryError :=
  ⟨C7_empty_query_rejection.1 ⟨[3], 1, .showing⟩ (cs "abc"),
    C7_empty_query_rejection.2 ⟨[9], 4, .showing⟩ (cs "xyz") (cs "q")
      (by decide)⟩

/-- C8: navigation is cyclic — forward from the last index wraps to 0 and
backward from index 0 wraps to the last index — and with an empty match
list both directions are complete no-ops rather than errors. -/
theorem C8_cyclic_navigation :
    (∀ st : UIState, st.results = [] →
      on_next_search st = st ∧ on_prev_search st = st) ∧
    (∀ st : UIState, st.results ≠ [] →
      st.cursor = st.results.length - 1 → (on_next_search st).cursor = 0) ∧
    (∀ st : UIState, st.results ≠ [] →
      st.cursor = 0 →
      (on_prev_search st).cursor = st.results.length - 1) := by
  refine ⟨fun st h => ?_, fun st h hc => ?_, fun st h hc => ?_⟩
  · constructor
    · unfold on_next_search
      rw [if_pos h]
    · unfold on_prev_search
      rw [if_pos h]
  · unfold on_next_search
    rw [if_neg h]
    have hpos : 0 < st.results.length := List.length_pos.mpr h
    simp only [hc]
    have h2 : st.results.length - 1 + 1 = st.results.length := by omega
    rw [h2, Nat.mod_self]
  · unfold on_prev_search
    rw [if_neg h]
    have hpos : 0 < st.results.length := List.length_pos.mpr h
    simp only [hc]
    rw [Nat.zero_add]
    exact Nat.mod_eq_of_lt (by omega)

/-- Witness for C8 at concrete session states. -/
theorem C8_witness :
    (on_next_search ⟨[], 0, .idle⟩ = ⟨[], 0, .idle⟩ ∧
        on_prev_search ⟨[], 0, .idle⟩ = ⟨[], 0, .idle⟩) ∧
      (on_next_search ⟨[4, 7, 9], 2, .showing⟩).cursor = 0 ∧
      (on_prev_search ⟨[4, 7, 9], 0, .showing⟩).cursor = 3 - 1 :=
  ⟨C8_cyclic_navigation.1 ⟨[], 0, .idle⟩ rfl,
    C8_cyclic_navigation.2.1 ⟨[4, 7, 9], 2, .showing⟩ (by decide) (by decide),
    C8_cyclic_navigation.2.2 ⟨[4, 7, 9], 0, .showing⟩ (by decide) rfl⟩

/-! ### Lemmas about the search scan (Python str.find collection loop). -/

theorem findIdx0_none_all {pat : List Char} :
    ∀ {s : List Char}, findIdx0 pat s = none →
      ∀ k, pat.isPrefixOf (s.drop k) = false
  | [], h, k => by
    rw [findIdx0] at h
    by_cases hpre : pat.isPrefixOf ([] : List Char) = true
    · rw [if_pos hpre] at h; cases h
    · rw [if_neg hpre] at h
      rw [Bool.not_eq_true] at hpre
      rw [List.drop_nil]
      exact hpre
  | c :: t, h, 0 => by
    rw [findIdx0] at h
    by_cases hpre : pat.isPrefixOf (c :: t) = true
    · rw [if_pos hpre] at h; cases h
    · rw [if_neg hpre] at h
      rw [Bool.not_eq_true] at hpre
      exact hpre
  | c :: t, h, k + 1 => by
    rw [findIdx0] at h
    by_cases hpre : pat.isPrefixOf (c :: t) = true
    · rw [if_pos hpre] at h; cases h
    · rw [if_neg hpre] at h
      have h2 : findIdx0 pat t = none := by
        cases he : findIdx0 pat t with
        | none => rfl
        | some j => rw [he] at h; simp at h
      exact findIdx0_none_all h2 k

theorem findIdx0_some_spec {pat : List Char} :
    ∀ {s : List Char} {j : Nat}, findIdx0 pat s = some j →
      pat.isPrefixOf (s.drop j) = true ∧
        ∀ k, k < j → pat.isPrefixOf (s.drop k) = false
  | [], j, h => by
    rw [findIdx0] at h
    by_cases hpre : pat.isPrefixOf ([] : List Char) = true
    · rw [if_pos hpre] at h
      cases h
      exact ⟨hpre, fun k hk => absurd hk (Nat.not_lt_zero k)⟩
    · rw [if_neg hpre] at h; cases h
  | c :: t, j, h => by
    rw [findIdx0] at h
    by_cases hpre : pat.isPrefixOf (c :: t) = true
    · rw [if_pos hpre] at h
      cases h
      exact ⟨hpre, fun k hk => absurd hk (Nat.not_lt_zero k)⟩
    · rw [if_neg hpre] at h
      cases he : findIdx0 pat t with
      | none => rw [he] at h; simp at h
      | some j2 =>
        rw [he] at h
        simp only [Option.map] at h
        cases h
        have ih := findIdx0_some_spec he
        refine ⟨ih.1, fun k hk => ?_⟩
        cases k with
        | zero =>
          rw [Bool.not_eq_true] at hpre
          exact hpre
        | succ k2 => exact ih.2 k2 (by omega)

/-- The find-collect loop returns exactly the ascending list of all offsets
at which the query occurs (overlapping occurrences included), because the
scan resumes one codepoint past each hit. -/
theorem searchLoopF_eq {text pat : List Char} (hp : pat ≠ []) :
    ∀ (fuel start : Nat), text.length + 1 - start ≤ fuel →
      searchLoopF text pat fuel start =
        (List.range' start (text.length - start)).filter
          (fun i => pat.isPrefixOf (text.drop i)) := by
  intro fuel
  induction fuel with
  | zero =>
    intro start hf
    have h1 : text.length - start = 0 := by omega
    rw [h1]
    rfl
  | succ fuel ih =>
    intro start hf
    simp only [searchLoopF]
    cases hfind : pyFind text pat start with
    | none =>
      unfold pyFind at hfind
      have h0 : findIdx0 pat (text.drop start) = none := by
        cases he : findIdx0 pat (text.drop start) with
        | none => rfl
        | some j => rw [he] at hfind; simp at hfind
      have hall := findIdx0_none_all h0
      symm
      rw [List.filter_eq_nil_iff]
      intro i hi hpi
      rw [List.mem_range'_1] at hi
      have h2 := hall (i - start)
      rw [List.drop_drop] at h2
      have h3 : start + (i - start) = i := by omega
      rw [h3] at h2
      rw [h2] at hpi
      exact Bool.false_ne_true hpi
    | some p =>
      show p :: searchLoopF text pat fuel (p + 1) =
        (List.range' start (text.length - start)).filter
          (fun i => pat.isPrefixOf (text.drop i))
      unfold pyFind at hfind
      cases he : findIdx0 pat (text.drop start) with
      | none => rw [he] at hfind; simp at hfind
      | some j =>
        rw [he] at hfind
        simp only [Option.map] at hfind
        cases hfind
        have hcomm : j + start = start + j := Nat.add_comm j start
        rw [hcomm]
        obtain ⟨hj1, hj2⟩ := findIdx0_some_spec he
        rw [List.drop_drop] at hj1
        have hplen : start + j < text.length := by
          by_contra hc
          have : text.drop (start + j) = [] := by
            rw [List.drop_eq_nil_iff]; omega
          rw [this] at hj1
          cases pat with
          | nil => exact hp rfl
          | cons a b => simp [List.isPrefixOf] at hj1
        -- split the range at the hit
        have hr1 : List.range' start (text.length - start) =
            List.range' start j ++
              List.range' (start + j) (text.length - (start + j)) := by
          rw [List.range'_append_1]
          congr 1
          omega
        rw [hr1, List.filter_append]
        have hleft : (List.range' start j).filter
            (fun i => pat.isPrefixOf (text.drop i)) = [] := by
          rw [List.filter_eq_nil_iff]
          intro i hi hpi
          rw [List.mem_range'_1] at hi
          have h2 := hj2 (i - start) (by omega)
          rw [List.drop_drop] at h2
          have h3 : start + (i - start) = i := by omega
          rw [h3] at h2
          rw [h2] at hpi
          exact Bool.false_ne_true hpi
        rw [hleft, List.nil_append]
        have hr2 : List.range' (start + j) (text.length - (start + j)) =
            List.range' (start + j) 1 ++
              List.range' (start + j + 1) (text.length - (start + j + 1)) := by
          rw [List.range'_append_1]
          congr 1
          omega
        rw [hr2, List.filter_append]
        have hone : (List.range' (start + j) 1).filter
            (fun i => pat.isPrefixOf (text.drop i)) = [start + j] := by
          have h4 : List.range' (start + j) 1 = [start + j] := rfl
          rw [h4]
          simp [List.filter, hj1]
        rw [hone]
        have hrec := ih (start + j + 1) (by omega)
        rw [← hrec]
        rfl

/-- C5: for every text and nonempty query, the search scan — which resumes
one codepoint past each hit's start — returns exactly the ascending list of
ALL codepoint offsets at which the query occurs, overlapping occurrences
included; an empty result is the valid not-found outcome, reported with the
not-found status rather than an error. -/
theorem C5_search_finds_all_offsets (text query : List Char)
    (h : query ≠ []) :
    searchAll text query =
      (List.range text.length).filter
        (fun i => query.isPrefixOf (text.drop i)) ∧
    (searchAll text query).Pairwise (fun a b => a < b) ∧
    (∀ st : UIState, searchAll text query = [] →
      (on_search st text query).status = .notFoundMsg) := by
  have hmain : searchAll text query =
      (List.range text.length).filter
        (fun i => query.isPrefixOf (text.drop i)) := by
    unfold searchAll
    rw [searchLoopF_eq h (text.length + 1) 0 (by omega)]
    rw [List.range_eq_range']
    simp
  refine ⟨hmain, ?_, ?_⟩
  · rw [hmain]
    exact (List.pairwise_lt_range text.length).sublist (List.filter_sublist _)
  · intro st hempty
    unfold on_search
    rw [if_neg h]
    dsimp only
    rw [hempty]
    rfl

/-- Witness for C5 on an overlapping-occurrence example. -/
theorem C5_witness :
    searchAll (cs "aaa") (cs "aa") =
      (List.range (cs "aaa").length).filter
        (fun i => (cs "aa").isPrefixOf ((cs "aaa").drop i)) ∧
    (searchAll (cs "aaa") (cs "aa")).Pairwise (fun a b => a < b) ∧
    (∀ st : UIState, searchAll (cs "aaa") (cs "aa") = [] →
      (on_search st (cs "aaa") (cs "aa")).status = .notFoundMsg) :=
  C5_search_finds_all_offsets (cs "aaa") (cs "aa") (by decide)

/-- C4: deleting the current match removes exactly `len(query)` codepoints
at the current match's offset, removes the current entry from the match
list, and subtracts `len(query)` from precisely the remaining entries whose
offset exceeds the removed offset (the index-based loop of the source
coincides with this offset-based description because the match list is
strictly ascending); the cursor is then clamped to the last valid index,
and an emptied list is reported as the exhausted state, not as the
no-results error. -/
theorem C4_delete_current_match (st : UIState) (text query : List Char)
    (hne : st.results ≠ [])
    (hasc : st.results.Pairwise (fun a b => a < b))
    (hc : st.cursor < st.results.length) :
    (on_delete_current_match st text query).1 =
        text.take (st.results.getD st.cursor 0).toNat ++
          text.drop ((st.results.getD st.cursor 0).toNat + query.length) ∧
    (on_delete_current_match st text query).2.results =
        (st.results.eraseIdx st.cursor).map
          (fun o => if st.results.getD st.cursor 0 < o
            then o - (query.length : Int) else o) ∧
    ((on_delete_current_match st text query).2.results ≠ [] →
      (on_delete_current_match st text query).2.cursor =
          min st.cursor
            ((on_delete_current_match st text query).2.results.length - 1) ∧
        (on_delete_current_match st text query).2.status = .deletedShowing) ∧
    ((on_delete_current_match st text query).2.results = [] →
      (on_delete_current_match st text query).2.cursor = st.cursor ∧
        (on_delete_current_match st text query).2.status = .allDeleted ∧
        (on_delete_current_match st text query).2.status ≠ .noResultsError) := by
  obtain ⟨l, c, stat⟩ := st
  dsimp only at hne hasc hc ⊢
  have hcl : c ≤ l.length := Nat.le_of_lt hc
  have hlen_take : (l.take c).length = c := by
    rw [List.length_take]
    omega
  have htake : (l.eraseIdx c).take c = l.take c := by
    rw [List.eraseIdx_eq_take_drop_succ]
    exact List.take_left' hlen_take
  have hdrop : (l.eraseIdx c).drop c = l.drop (c + 1) := by
    rw [List.eraseIdx_eq_take_drop_succ]
    exact List.drop_left' hlen_take
  have hposget : l.getD c 0 = l[c] := by
    rw [List.getD_eq_getElem?_getD, List.getElem?_eq_getElem hc]
    rfl
  -- the index-based shift loop equals the offset-based description
  have hshift : l.take c ++
      (l.drop (c + 1)).map (fun o => o - (query.length : Int)) =
      (l.eraseIdx c).map
        (fun o => if l.getD c 0 < o then o - (query.length : Int) else o) := by
    rw [List.eraseIdx_eq_take_drop_succ, List.map_append]
    have h1 : (l.take c).map
        (fun o => if l.getD c 0 < o then o - (query.length : Int) else o) =
        l.take c := by
      have hall : ∀ o ∈ l.take c,
          (if l.getD c 0 < o then o - (query.length : Int) else o) = o := by
        intro o ho
        obtain ⟨i, hi, rfl⟩ := List.getElem_of_mem ho
        have hi2 : i < c := by
          rw [hlen_take] at hi
          exact hi
        have hi3 : i < l.length := by omega
        rw [List.getElem_take]
        have hlt : l[i] < l[c] :=
          List.pairwise_iff_getElem.mp hasc i c hi3 hc hi2
        rw [hposget, if_neg (by omega)]
      calc (l.take c).map
            (fun o => if l.getD c 0 < o then o - (query.length : Int) else o)
          = (l.take c).map id := List.map_congr_left hall
        _ = l.take c := List.map_id _
    have h2 : (l.drop (c + 1)).map
        (fun o => if l.getD c 0 < o then o - (query.length : Int) else o) =
        (l.drop (c + 1)).map (fun o => o - (query.length : Int)) := by
      apply List.map_congr_left
      intro o ho
      obtain ⟨i, hi, rfl⟩ := List.getElem_of_mem ho
      have hi3 : c + 1 + i < l.length := by
        rw [List.length_drop] at hi
        omega
      rw [List.getElem_drop]
      have hlt : l[c] < l[(c + 1) + i] :=
        List.pairwise_iff_getElem.mp hasc c ((c + 1) + i) hc hi3 (by omega)
      rw [hposget, if_pos (by omega)]
    rw [h1, h2]
  have hshlen : (l.take c ++
      (l.drop (c + 1)).map (fun o => o - (query.length : Int))).length =
      l.length - 1 := by
    rw [List.length_append, List.length_map, hlen_take, List.length_drop]
    omega
  -- evaluate the handler
  have hod : on_delete_current_match ⟨l, c, stat⟩ text query =
      (text.take (l.getD c 0).toNat ++
        text.drop ((l.getD c 0).toNat + query.length),
       if h : (l.take c ++
           (l.drop (c + 1)).map (fun o => o - (query.length : Int))) = []
       then ⟨[], c, .allDeleted⟩
       else ⟨l.take c ++
           (l.drop (c + 1)).map (fun o => o - (query.length : Int)),
         if (l.take c ++
             (l.drop (c + 1)).map
               (fun o => o - (query.length : Int))).length ≤ c
         then (l.take c ++
             (l.drop (c + 1)).map
               (fun o => o - (query.length : Int))).length - 1
         else c, .deletedShowing⟩) := by
    unfold on_delete_current_match
    rw [if_neg hne]
    dsimp only
    rw [htake, hdrop]
    split
    · rfl
    · rfl
  rw [hod]
  by_cases hcase : (l.take c ++
      (l.drop (c + 1)).map (fun o => o - (query.length : Int))) = []
  · rw [dif_pos hcase]
    refine ⟨rfl, ?_, ?_, ?_⟩
    · dsimp only
      rw [← hshift, hcase]
    · intro hcontra
      exact absurd rfl hcontra
    · intro _
      refine ⟨rfl, rfl, ?_⟩
      intro hcontra
      exact SStatus.noConfusion hcontra
  · rw [dif_neg hcase]
    refine ⟨rfl, ?_, ?_, ?_⟩
    · dsimp only
      rw [← hshift]
    · intro _
      refine ⟨?_, rfl⟩
      dsimp only
      rw [hshlen]
      have hll : 0 < l.length := by
        cases l with
        | nil => exact absurd rfl hne
        | cons a b => simp
      by_cases hcl2 : l.length - 1 ≤ c
      · rw [if_pos hcl2]
        omega
      · rw [if_neg hcl2]
        omega
    · intro hcontra
      dsimp only at hcontra
      exact absurd hcontra hcase

/-- Witness for C4: the spec's concrete scenario — text AxxAxxA, query A,
matches [0, 3, 6], delete at cursor 0 — yields text xxAxxA and matches
[2, 5] with the cursor still valid. -/
theorem C4_witness :
    (on_delete_current_match ⟨[0, 3, 6], 0, .showing⟩
        (cs "AxxAxxA") (cs "A")).1 = cs "xxAxxA" ∧
    (on_delete_current_match ⟨[0, 3, 6], 0, .showing⟩
        (cs "AxxAxxA") (cs "A")).2.results = [2, 5] ∧
    (on_delete_current_match ⟨[0, 3, 6], 0, .showing⟩
        (cs "AxxAxxA") (cs "A")).2.cursor = 0 ∧
    (on_delete_current_match ⟨[0, 3, 6], 0, .showing⟩
        (cs "AxxAxxA") (cs "A")).2.status = .deletedShowing := by
  have h := C4_delete_current_match ⟨[0, 3, 6], 0, .showing⟩
    (cs "AxxAxxA") (cs "A") (by decide) (by decide) (by decide)
  refine ⟨h.1.trans (by decide), h.2.1.trans (by decide), ?_, ?_⟩
  · exact ((h.2.2.1 (by decide)).1).trans (by decide)
  · exact (h.2.2.1 (by decide)).2

/-! ### Lemmas for the explicit name-label rule. -/

/-- A full-text match variant of `reSub_full_match` for nonempty texts. -/
theorem reSub_full_match2 {A : Type} {m : List Char → Option (Nat × A)}
    {rf : List Char → A → List Char × List Ev} {s : List Char} {a : A}
    (hne : s ≠ []) (hm : m s = some (s.length, a)) :
    reSub m rf s = rf s a := by
  cases s with
  | nil => exact absurd rfl hne
  | cons c t => exact reSub_full_match hm

/-- A candidate made of kanji/katakana (no whitespace) never matches the
label delimiter class. -/
theorem nameCls_not_colonSp {ch : Char} (h1 : isNameCls ch = true)
    (h2 : isSpaceCh ch = false) : isColonSp ch = false := by
  have hn1 : (ch == '：') = false := by
    rw [beq_eq_false_iff_ne]
    intro he
    subst he
    exact absurd h1 (by decide)
  have hn2 : (ch == ':') = false := by
    rw [beq_eq_false_iff_ne]
    intro he
    subst he
    exact absurd h1 (by decide)
  unfold isColonSp
  rw [hn1, hn2, h2]
  rfl

theorem dropWhile_of_all_neg {p : Char → Bool} {l : List Char}
    (h : ∀ ch ∈ l, p ch = false) : l.dropWhile p = l := by
  cases l with
  | nil => rfl
  | cons c t =>
    rw [List.dropWhile_cons_of_neg]
    rw [h c (List.mem_cons_self c t)]
    exact Bool.false_ne_true

theorem pyStrip_of_no_space {l : List Char}
    (h : ∀ ch ∈ l, isSpaceCh ch = false) : pyStrip l = l := by
  unfold pyStrip
  rw [dropWhile_of_all_neg h]
  rw [dropWhile_of_all_neg (fun ch hch => h ch (List.mem_reverse.mp hch))]
  exact List.reverse_reverse l

/-- The label tail `[：:\s]*([…]{2,10})` on a fullwidth colon followed by a
clean 2–10 codepoint candidate captures exactly the candidate. -/
theorem matchNameCore_colon_name {name : List Char}
    (h1 : ∀ ch ∈ name, isNameCls ch = true)
    (h2 : ∀ ch ∈ name, isSpaceCh ch = false)
    (hlen2 : 2 ≤ name.length) (hlen10 : name.length ≤ 10) :
    matchNameCore ('：' :: name) = some (1 + name.length, name) := by
  unfold matchNameCore
  have hcl : countLead isColonSp ('：' :: name) = 1 := by
    cases name with
    | nil => simp at hlen2
    | cons n0 rest =>
      have hn0 : isColonSp n0 = false :=
        nameCls_not_colonSp (h1 n0 (List.mem_cons_self n0 rest))
          (h2 n0 (List.mem_cons_self n0 rest))
      have hcolon : isColonSp '：' = true := by decide
      simp [countLead, hn0, hcolon]
  rw [hcl]
  have hat : matchNameAt ('：' :: name) 1 = some (1 + name.length, name) := by
    unfold matchNameAt
    dsimp only
    have hdrop : ('：' :: name).drop 1 = name := rfl
    rw [hdrop, countLead_of_all h1]
    have hmin : min 10 name.length = name.length := by omega
    rw [hmin]
    rw [if_pos hlen2]
    rw [List.take_length]
  show matchNameTail ('：' :: name) 1 = some (1 + name.length, name)
  unfold matchNameTail
  rw [hat]

/-- On 患者氏名： followed by a clean candidate, pattern 3 matches the whole
text and captures the candidate. -/
theorem remove_names_full_label {name : List Char}
    (h1 : ∀ ch ∈ name, isNameCls ch = true)
    (h2 : ∀ ch ∈ name, isSpaceCh ch = false)
    (hlen2 : 2 ≤ name.length) (hlen10 : name.length ≤ 10) :
    remove_names (cs "患者氏名：" ++ name) =
      replace_explicit_name (cs "患者氏名：" ++ name) name := by
  apply reSub_full_match2
  · intro hcontra
    have := congrArg List.length hcontra
    simp [cs] at this
  · unfold matchName
    have hpre : (cs "患者氏名").isPrefixOf (cs "患者氏名：" ++ name) = true := by
      simp [cs, List.isPrefixOf]
    rw [if_pos hpre]
    have hdrop : (cs "患者氏名：" ++ name).drop 4 = '：' :: name := rfl
    rw [hdrop, matchNameCore_colon_name h1 h2 hlen2 hlen10]
    have hlen : (cs "患者氏名：" ++ name).length = 4 + (1 + name.length) := by
      rw [List.length_append]
      have h5 : (cs "患者氏名：").length = 5 := rfl
      rw [h5]
      omega
    rw [hlen]

/-- Same for the shorter 氏名： label form. -/
theorem remove_names_full_label2 {name : List Char}
    (h1 : ∀ ch ∈ name, isNameCls ch = true)
    (h2 : ∀ ch ∈ name, isSpaceCh ch = false)
    (hlen2 : 2 ≤ name.length) (hlen10 : name.length ≤ 10) :
    remove_names (cs "氏名：" ++ name) =
      replace_explicit_name (cs "氏名：" ++ name) name := by
  apply reSub_full_match2
  · intro hcontra
    have := congrArg List.length hcontra
    simp [cs] at this
  · unfold matchName
    have hpre : (cs "患者氏名").isPrefixOf (cs "氏名：" ++ name) = false := by
      simp [cs, List.isPrefixOf]
    rw [if_neg (by rw [hpre]; exact Bool.false_ne_true)]
    unfold matchNamePlain
    have hpre2 : (cs "氏名").isPrefixOf (cs "氏名：" ++ name) = true := by
      simp [cs, List.isPrefixOf]
    rw [if_pos hpre2]
    have hdrop : (cs "氏名：" ++ name).drop 2 = '：' :: name := rfl
    rw [hdrop, matchNameCore_colon_name h1 h2 hlen2 hlen10]
    have hlen : (cs "氏名：" ++ name).length = 2 + (1 + name.length) := by
      rw [List.length_append]
      have h3 : (cs "氏名：").length = 3 := rfl
      rw [h3]
      omega
    rw [hlen]

/-! ### Lemmas for str.replace on the matched phrase. -/

/-- When the pattern occurs in the text, the replacement string occurs in
the output of str.replace. -/
theorem occursIn_repl_replaceAllF {pat repl : List Char} (hne : pat ≠ []) :
    ∀ (fuel : Nat) (s : List Char), s.length ≤ fuel → occursIn pat s = true →
      occursIn repl (replaceAllF pat repl fuel s) = true := by
  intro fuel
  induction fuel with
  | zero =>
    intro s hf hocc
    have hs : s = [] := by
      cases s with
      | nil => rfl
      | cons c t => simp at hf
    subst hs
    rw [occursIn] at hocc
    cases pat with
    | nil => exact absurd rfl hne
    | cons a b => simp [List.isPrefixOf] at hocc
  | succ fuel ih =>
    intro s hf hocc
    cases s with
    | nil =>
      rw [occursIn] at hocc
      cases pat with
      | nil => exact absurd rfl hne
      | cons a b => simp [List.isPrefixOf] at hocc
    | cons c t =>
      rw [replaceAllF]
      by_cases hpre : pat.isPrefixOf (c :: t) = true
      · have hcond : (pat.isPrefixOf (c :: t) && !pat.isEmpty) = true := by
          rw [hpre]
          cases pat with
          | nil => exact absurd rfl hne
          | cons a b => rfl
        rw [if_pos hcond]
        apply occursIn_of_isPrefixOf
        rw [List.isPrefixOf_iff_prefix]
        exact List.prefix_append repl _
      · have hcond : (pat.isPrefixOf (c :: t) && !pat.isEmpty) = false := by
          rw [Bool.not_eq_true] at hpre
          rw [hpre]
          rfl
        rw [if_neg (by rw [hcond]; exact Bool.false_ne_true)]
        apply occursIn_cons_of
        apply ih t (by simpa using hf)
        rw [occursIn] at hocc
        rw [Bool.not_eq_true] at hpre
        rw [hpre] at hocc
        simpa using hocc

/-- str.replace on label ++ candidate rewrites only the final candidate
when no occurrence of the candidate starts inside the label. -/
theorem replaceAllF_label {name repl : List Char} (hne : name ≠ []) :
    ∀ (lab : List Char) (fuel : Nat), (lab ++ name).length ≤ fuel →
      (∀ p, p < lab.length →
        name.isPrefixOf ((lab ++ name).drop p) = false) →
      replaceAllF name repl fuel (lab ++ name) = lab ++ repl := by
  intro lab
  induction lab with
  | nil =>
    intro fuel hf hpos
    cases name with
    | nil => exact absurd rfl hne
    | cons a b =>
      simp only [List.nil_append] at hf ⊢
      cases fuel with
      | zero => simp at hf
      | succ fuel =>
        rw [replaceAllF]
        have hcond : ((a :: b).isPrefixOf (a :: b) && !(a :: b).isEmpty) = true := by
          rw [List.isPrefixOf_iff_prefix.mpr (List.prefix_refl _)]
          rfl
        rw [if_pos hcond]
        have hdrop : (a :: b).drop (a :: b).length = [] := by simp
        rw [hdrop]
        have hnil : replaceAllF (a :: b) repl fuel [] = [] := by
          cases fuel <;> rfl
        rw [hnil, List.append_nil]
  | cons c lab2 ihl =>
    intro fuel hf hpos
    cases fuel with
    | zero => simp at hf
    | succ fuel =>
      simp only [List.cons_append] at hf ⊢
      rw [replaceAllF]
      have hpre : name.isPrefixOf (c :: (lab2 ++ name)) = false := by
        have := hpos 0 (by simp)
        simpa using this
      have hcond : (name.isPrefixOf (c :: (lab2 ++ name)) && !name.isEmpty) = false := by
        rw [hpre]
        rfl
      rw [if_neg (by rw [hcond]; exact Bool.false_ne_true)]
      rw [ihl fuel (by simpa using hf) ?hpos2]
      case hpos2 =>
        intro p hp
        have := hpos (p + 1) (by simpa using Nat.succ_lt_succ hp)
        simpa using this

/-- A string that is a prefix of `y ++ x` and no longer than `y` is a
prefix of `y`. -/
theorem prefix_head_of_prefix_append {x y : List Char}
    (hpre : x <+: y ++ x) (hlen : x.length ≤ y.length) : x <+: y := by
  obtain ⟨u, hu⟩ := hpre
  have h1 : x = (y ++ x).take x.length := by
    rw [← hu, List.take_left' rfl]
  rw [List.take_append_of_le_length hlen] at h1
  rw [h1]
  exact List.take_prefix _ _

/-- If `x` is a prefix of `y ++ x` and at least as long as `y`, then `y`
is a prefix of `x` (the occurrence crosses the boundary). -/
theorem prefix_rev_of_prefix_append {x y : List Char}
    (hpre : x <+: y ++ x) (hlen : y.length ≤ x.length) : y <+: x := by
  obtain ⟨u, hu⟩ := hpre
  have h1 : y = (x ++ u).take y.length := by
    rw [hu, List.take_append_of_le_length (Nat.le_refl _), List.take_length]
  rw [List.take_append_of_le_length hlen] at h1
  rw [h1]
  exact List.take_prefix _ _

/-- No occurrence of a colon-free candidate can start inside a label chunk
that still contains the fullwidth colon, unless the candidate occurs
entirely inside the chunk. -/
theorem name_prefix_cross_false {name d : List Char}
    (hmem : '：' ∈ d) (hnotin : '：' ∉ name)
    (hnin : ¬ (name <+: d)) :
    name.isPrefixOf (d ++ name) = false := by
  cases hb : name.isPrefixOf (d ++ name) with
  | false => rfl
  | true =>
    exfalso
    rw [List.isPrefixOf_iff_prefix] at hb
    by_cases hlen : name.length ≤ d.length
    · exact hnin (prefix_head_of_prefix_append hb hlen)
    · have hd : d <+: name := prefix_rev_of_prefix_append hb (by omega)
      exact hnotin (hd.sublist.subset hmem)

theorem not_prefix_drop_of_not_occurs {name lab : List Char}
    (hocc : occursIn name lab = false) (p : Nat) :
    ¬ (name <+: lab.drop p) := by
  intro hpre
  have h1 : occursIn name (lab.drop p) = true :=
    occursIn_of_isPrefixOf (List.isPrefixOf_iff_prefix.mpr hpre)
  have h2 : occursIn name lab = true :=
    occursIn_of_suffix (List.drop_suffix p lab) h1
  rw [h2] at hocc
  exact absurd hocc (by simp)

/-- Bundle: on a label all of whose proper tails still contain 「：」, a
colon-free candidate that does not occur in the label has no occurrence
starting inside the label. -/
theorem labelSafeStarts {name lab : List Char}
    (hmem : ∀ p, p < lab.length → '：' ∈ lab.drop p)
    (hnotin : '：' ∉ name)
    (hocc : occursIn name lab = false) :
    ∀ p, p < lab.length → name.isPrefixOf ((lab ++ name).drop p) = false := by
  intro p hp
  have hsplit : (lab ++ name).drop p = lab.drop p ++ name :=
    List.drop_append_of_le_length (Nat.le_of_lt hp)
  rw [hsplit]
  exact name_prefix_cross_false (hmem p hp) hnotin
    (not_prefix_drop_of_not_occurs hocc p)

/-- C2: a candidate captured by the explicit name-label form that contains
any protected vocabulary entry as a substring is left unredacted with no
event logged; a captured candidate containing no protected term is replaced
(the 氏名 placeholder appears in the output) and logged. -/
theorem C2_protected_term_exemption (name : List Char)
    (h1 : ∀ ch ∈ name, isNameCls ch = true)
    (h2 : ∀ ch ∈ name, isSpaceCh ch = false)
    (hlen2 : 2 ≤ name.length) (hlen10 : name.length ≤ 10) :
    (is_medical_term name = true →
      remove_names (cs "患者氏名：" ++ name) =
        (cs "患者氏名：" ++ name, [])) ∧
    (is_medical_term name = false →
      (remove_names (cs "患者氏名：" ++ name)).2 =
          [("氏名", String.mk name)] ∧
        occursIn (cs "[氏名]")
          (remove_names (cs "患者氏名：" ++ name)).1 = true) := by
  have hfull := remove_names_full_label h1 h2 hlen2 hlen10
  have hstrip : pyStrip name = name := pyStrip_of_no_space h2
  have hne : name ≠ [] := by
    intro hn
    rw [hn] at hlen2
    simp at hlen2
  constructor
  · intro hmed
    rw [hfull]
    unfold replace_explicit_name
    rw [hstrip, if_pos hmed]
  · intro hmed
    rw [hfull]
    unfold replace_explicit_name
    rw [hstrip]
    rw [if_neg (by rw [hmed]; exact Bool.false_ne_true)]
    refine ⟨rfl, ?_⟩
    unfold replaceAll
    apply occursIn_repl_replaceAllF hne _ _ (Nat.le_refl _)
    exact occursIn_append_right _ (occursIn_of_isPrefixOf
      (List.isPrefixOf_iff_prefix.mpr (List.prefix_refl _)))

/-- Witness for C2: 患者氏名：統合失調症太郎 is exempt (the candidate
contains the protected term 統合失調症); 患者氏名：田中太郎 is replaced
and logged. -/
theorem C2_witness :
    remove_names (cs "患者氏名：" ++ cs "統合失調症太郎") =
        (cs "患者氏名：" ++ cs "統合失調症太郎", []) ∧
      (remove_names (cs "患者氏名：" ++ cs "田中太郎")).2 =
          [("氏名", String.mk (cs "田中太郎"))] ∧
        occursIn (cs "[氏名]")
          (remove_names (cs "患者氏名：" ++ cs "田中太郎")).1 = true :=
  ⟨(C2_protected_term_exemption (cs "統合失調症太郎") (by decide) (by decide)
      (by decide) (by decide)).1 (by decide),
    (C2_protected_term_exemption (cs "田中太郎") (by decide) (by decide)
      (by decide) (by decide)).2 (by decide)⟩

/-- C9 counterexample: for input 氏名：氏名 the candidate 氏名 also occurs
inside the label, and `match.group(0).replace(name, '[氏名]')` rewrites the
label too — the output is [氏名]：[氏名] and no longer contains the label
text 氏名： at all, refuting "the label text itself appears unchanged". -/
theorem C9_counterexample :
    remove_names (cs "氏名：氏名") =
        (cs "[氏名]：[氏名]", [("氏名", "氏名")]) ∧
      occursIn (cs "氏名：") (cs "[氏名]：[氏名]") = false := by
  constructor
  · decide
  · decide

/-- C9 (amended): when the name rule redacts an explicit label-qualified
match whose candidate does not itself occur inside the label text, only the
name portion is replaced — the label survives verbatim and nothing else in
the matched phrase changes. -/
theorem C9_label_preserved (name : List Char)
    (h1 : ∀ ch ∈ name, isNameCls ch = true)
    (h2 : ∀ ch ∈ name, isSpaceCh ch = false)
    (hlen2 : 2 ≤ name.length) (hlen10 : name.length ≤ 10)
    (hmed : is_medical_term name = false) :
    (occursIn name (cs "患者氏名：") = false →
      remove_names (cs "患者氏名：" ++ name) =
        (cs "患者氏名：" ++ cs "[氏名]", [("氏名", String.mk name)])) ∧
    (occursIn name (cs "氏名：") = false →
      remove_names (cs "氏名：" ++ name) =
        (cs "氏名：" ++ cs "[氏名]", [("氏名", String.mk name)])) := by
  have hstrip : pyStrip name = name := pyStrip_of_no_space h2
  have hne : name ≠ [] := by
    intro hn
    rw [hn] at hlen2
    simp at hlen2
  have hnotin : '：' ∉ name := fun hin => absurd (h1 '：' hin) (by decide)
  constructor
  · intro hocc
    rw [remove_names_full_label h1 h2 hlen2 hlen10]
    unfold replace_explicit_name
    rw [hstrip, if_neg (by rw [hmed]; exact Bool.false_ne_true)]
    unfold replaceAll
    rw [replaceAllF_label hne (cs "患者氏名：") _ (Nat.le_refl _)
      (labelSafeStarts (by decide) hnotin hocc)]
  · intro hocc
    rw [remove_names_full_label2 h1 h2 hlen2 hlen10]
    unfold replace_explicit_name
    rw [hstrip, if_neg (by rw [hmed]; exact Bool.false_ne_true)]
    unfold replaceAll
    rw [replaceAllF_label hne (cs "氏名：") _ (Nat.le_refl _)
      (labelSafeStarts (by decide) hnotin hocc)]

/-- Witness for C9 at the candidate 田中太郎 under both label forms. -/
theorem C9_witness :
    remove_names (cs "患者氏名：" ++ cs "田中太郎") =
        (cs "患者氏名：" ++ cs "[氏名]", [("氏名", String.mk (cs "田中太郎"))]) ∧
      remove_names (cs "氏名：" ++ cs "田中太郎") =
        (cs "氏名：" ++ cs "[氏名]", [("氏名", String.mk (cs "田中太郎"))]) :=
  ⟨(C9_label_preserved (cs "田中太郎") (by decide) (by decide) (by decide)
      (by decide) (by decide)).1 (by decide),
    (C9_label_preserved (cs "田中太郎") (by decide) (by decide) (by decide)
      (by decide) (by decide)).2 (by decide)⟩

/-! ### Lemmas for the phone pass and its date-like guard. -/

theorem hyphen_lit_fail {c : Char} {t : List Char}
    {k : List Char → Option Nat} (hc : isDigitCh c = true) :
    litK (cs "-") k (c :: t) = none := by
  unfold litK
  have hpre : (cs "-").isPrefixOf (c :: t) = false := by
    show (('-' == c) && List.isPrefixOf [] t) = false
    have hne : ('-' == c) = false := by
      rw [beq_eq_false_iff_ne]
      intro he
      subst he
      exact absurd hc (by decide)
    rw [hne]
    rfl
  rw [if_neg (by rw [hpre]; exact Bool.false_ne_true)]

theorem hyphen_lit_ok {t : List Char} {k : List Char → Option Nat} :
    litK (cs "-") k ('-' :: t) = (k t).map (fun m => 1 + m) := by
  unfold litK
  have hp : (cs "-").isPrefixOf ('-' :: t) = true := by
    show (('-' == '-') && List.isPrefixOf [] t) = true
    simp
  rw [if_pos hp]
  rfl

/-- Digit run of a digit block followed by a hyphen. -/
theorem countLead_digits_hyphen {a r : List Char}
    (ha : ∀ ch ∈ a, isDigitCh ch = true) :
    countLead isDigitCh (a ++ ('-' :: r)) = a.length := by
  rw [countLead_append_of_all ha, countLead_cons_neg (by decide)]
  omega

/-- Heads of the tails of an all-digit block are digits: dropping fewer
than the block leaves a digit-headed list. -/
theorem drop_digit_head {a : List Char} (r : List Char) {i : Nat}
    (ha : ∀ ch ∈ a, isDigitCh ch = true) (hi : i < a.length) :
    ∃ c t, (a ++ ('-' :: r)).drop i = c :: t ∧ isDigitCh c = true := by
  refine ⟨a[i], a.drop (i + 1) ++ ('-' :: r), ?_, ha _ (a.getElem_mem hi)⟩
  rw [List.drop_append_of_le_length (Nat.le_of_lt hi)]
  rw [← List.getElem_cons_drop a i hi]
  rfl

/-- The guard block `\d{1,2}-` succeeds past the hyphen exactly when the
digit block has exactly 2 digits (with 2 being within reach of the greedy
quantifier); on 3 or 4 digits both repeat counts land on a digit and the
hyphen literal fails. -/
theorem guard_block_eval {a r : List Char} {k : List Char → Option Nat}
    (ha : ∀ ch ∈ a, isDigitCh ch = true)
    (ha2 : 2 ≤ a.length) (ha4 : a.length ≤ 4) :
    quantK isDigitCh 1 2 (litK (cs "-") k) (a ++ ('-' :: r)) =
      if a.length = 2 then (k r).map (fun m => 3 + m) else none := by
  unfold quantK
  rw [countLead_digits_hyphen ha]
  have hmin : min 2 a.length = 2 := by omega
  rw [hmin]
  rw [if_neg (by omega)]
  by_cases hlen : a.length = 2
  · rw [if_pos hlen]
    show tryCounts (litK (cs "-") k) (a ++ ('-' :: r)) 1 1 = _
    unfold tryCounts
    have hdrop : (a ++ ('-' :: r)).drop 2 = '-' :: r := by
      rw [List.drop_left' hlen]
    rw [show (1 + 0 + 1 : Nat) = 2 from rfl, hdrop, hyphen_lit_ok]
    cases hk : k r with
    | none =>
      show tryCounts (litK (cs "-") k) (a ++ ('-' :: r)) 1 0 = none
      unfold tryCounts
      have hdrop1 : ∃ c t, (a ++ ('-' :: r)).drop 1 = c :: t ∧
          isDigitCh c = true := drop_digit_head r ha (by omega)
      obtain ⟨c, t, hct, hc⟩ := hdrop1
      rw [hct, hyphen_lit_fail hc]
      rfl
    | some m =>
      show some (2 + (1 + m)) = some (3 + m)
      congr 1
      omega
  · rw [if_neg hlen]
    show tryCounts (litK (cs "-") k) (a ++ ('-' :: r)) 1 1 = none
    unfold tryCounts
    obtain ⟨c2, t2, hct2, hc2⟩ := drop_digit_head r ha
      (show 2 < a.length by omega)
    rw [show (1 + 0 + 1 : Nat) = 2 from rfl, hct2, hyphen_lit_fail hc2]
    show tryCounts (litK (cs "-") k) (a ++ ('-' :: r)) 1 0 = none
    unfold tryCounts
    obtain ⟨c1, t1, hct1, hc1⟩ := drop_digit_head r ha
      (show 1 < a.length by omega)
    rw [hct1, hyphen_lit_fail hc1]
    rfl

theorem quantK_top' {p : Char → Bool} {lo hi : Nat} {k : List Char → Option Nat}
    {s : List Char} {n m : Nat} (hn : min hi (countLead p s) = n)
    (hlo : lo ≤ n) (h : k (s.drop n) = some m) :
    quantK p lo hi k s = some (n + m) := by
  subst hn
  exact quantK_top hlo h

/-- The anchored date-like guard accepts a grouped-hyphen string exactly
when its first two digit groups have exactly 2 digits each — a PREFIX
check: the third group only needs to start with a digit. -/
theorem dateLikeGuard_eval {a b g : List Char}
    (ha : ∀ ch ∈ a, isDigitCh ch = true)
    (hb : ∀ ch ∈ b, isDigitCh ch = true)
    (hg : ∀ ch ∈ g, isDigitCh ch = true)
    (ha2 : 2 ≤ a.length) (ha4 : a.length ≤ 4)
    (hb2 : 2 ≤ b.length) (hb4 : b.length ≤ 4) (hg1 : 1 ≤ g.length) :
    dateLikeGuard (a ++ ('-' :: (b ++ ('-' :: g)))) =
      (decide (a.length = 2) && decide (b.length = 2)) := by
  unfold dateLikeGuard
  rw [guard_block_eval ha ha2 ha4]
  by_cases hla : a.length = 2
  · rw [if_pos hla]
    rw [guard_block_eval hb hb2 hb4]
    by_cases hlb : b.length = 2
    · rw [if_pos hlb]
      have hclg : countLead isDigitCh g = g.length := countLead_of_all hg
      have h3 : quantK isDigitCh 1 2 endK g = some (min 2 g.length + 0) :=
        quantK_top' (by rw [hclg]) (by omega) rfl
      rw [h3]
      simp [hla, hlb]
    · rw [if_neg hlb]
      simp [hla, hlb]
  · rw [if_neg hla]
    simp [hla]

/-- The grouped-hyphen phone pattern consumes the entire string
a-b-g when the groups have lengths 2–4, 2–4 and 4. -/
theorem phoneP1_full {a b g : List Char}
    (ha : ∀ ch ∈ a, isDigitCh ch = true)
    (hb : ∀ ch ∈ b, isDigitCh ch = true)
    (hg : ∀ ch ∈ g, isDigitCh ch = true)
    (ha2 : 2 ≤ a.length) (ha4 : a.length ≤ 4)
    (hb2 : 2 ≤ b.length) (hb4 : b.length ≤ 4) (hg4 : g.length = 4) :
    phoneP1 (a ++ ('-' :: (b ++ ('-' :: g)))) =
      some ((a ++ ('-' :: (b ++ ('-' :: g)))).length) := by
  have hclg : countLead isDigitCh g = g.length := countLead_of_all hg
  have h3 : quantK isDigitCh 4 4 endK g = some (4 + 0) :=
    quantK_top' (by rw [hclg, hg4]; omega) (by omega) rfl
  have h2 : quantK isDigitCh 2 4
      (litK (cs "-") (quantK isDigitCh 4 4 endK)) (b ++ ('-' :: g)) =
      some (b.length + (1 + (4 + 0))) := by
    apply quantK_top' (n := b.length)
    · rw [countLead_digits_hyphen hb]
      omega
    · exact hb2
    · rw [List.drop_left' rfl, hyphen_lit_ok, h3]
      rfl
  unfold phoneP1
  have h1 : quantK isDigitCh 2 4
      (litK (cs "-") (quantK isDigitCh 2 4
        (litK (cs "-") (quantK isDigitCh 4 4 endK))))
      (a ++ ('-' :: (b ++ ('-' :: g)))) =
      some (a.length + (1 + (b.length + (1 + (4 + 0))))) := by
    apply quantK_top' (n := a.length)
    · rw [countLead_digits_hyphen ha]
      omega
    · exact ha2
    · rw [List.drop_left' rfl, hyphen_lit_ok, h2]
      rfl
  rw [h1]
  congr 1
  simp [List.length_append]
  omega

/-- Appending a bounded digit block and a hyphen preserves a bound on the
leading digit run of every suffix. -/
theorem suffix_run_bound {y : List Char} {n : Nat}
    (hy : ∀ t, t <:+ y → countLead isDigitCh t ≤ n) :
    ∀ (x : List Char), (∀ ch ∈ x, isDigitCh ch = true) → x.length ≤ n →
      ∀ t, t <:+ x ++ ('-' :: y) → countLead isDigitCh t ≤ n := by
  intro x
  induction x with
  | nil =>
    intro _ _ t ht
    rw [List.nil_append] at ht
    rcases List.suffix_cons_iff.mp ht with h | h
    · subst h
      rw [countLead_cons_neg (by decide)]
      omega
    · exact hy t h
  | cons c x2 ih =>
    intro hx hxl t ht
    rw [List.cons_append] at ht
    rcases List.suffix_cons_iff.mp ht with h | h
    · subst h
      have hcl : countLead isDigitCh ((c :: x2) ++ ('-' :: y)) =
          (c :: x2).length := countLead_digits_hyphen hx
      rw [List.cons_append] at hcl
      rw [hcl]
      exact hxl
    · exact ih (fun ch hch => hx ch (List.mem_cons_of_mem c hch))
        (by simp at hxl; omega) t h

theorem phone_input_run_bound {a b g : List Char}
    (ha : ∀ ch ∈ a, isDigitCh ch = true)
    (hb : ∀ ch ∈ b, isDigitCh ch = true)
    (ha4 : a.length ≤ 4) (hb4 : b.length ≤ 4) (hg4 : g.length = 4) :
    ∀ t, t <:+ (a ++ ('-' :: (b ++ ('-' :: g)))) →
      countLead isDigitCh t ≤ 4 := by
  have hg : ∀ t, t <:+ g → countLead isDigitCh t ≤ 4 := by
    intro t ht
    calc countLead isDigitCh t ≤ t.length := countLead_le _ t
      _ ≤ g.length := ht.length_le
      _ ≤ 4 := by omega
  exact suffix_run_bound (suffix_run_bound hg b hb hb4) a ha ha4

/-- The bare 10–11 digit pattern finds nothing in a text whose every
suffix starts with at most 4 digits. -/
theorem pass2_id {s : List Char}
    (h : ∀ t, t <:+ s → countLead isDigitCh t ≤ 4) :
    reSub (simpleM phoneP2) phoneRf s = (s, []) := by
  apply reSub_no_match
  intro t ht
  unfold simpleM phoneP2
  rw [quantK_none ?hlt]
  case hlt =>
    have := h t ht
    omega
  rfl

/-- The parenthesized pattern finds nothing in a text made of digits and
hyphens. -/
theorem pass3_id {s : List Char}
    (h : ∀ c ∈ s, isDigitCh c = true ∨ c = '-') :
    reSub (simpleM phoneP3) phoneRf s = (s, []) := by
  apply reSub_no_match
  intro t ht
  cases t with
  | nil => rfl
  | cons c t2 =>
    have hc : c ∈ s := ht.subset (List.mem_cons_self c t2)
    have hne : ('(' == c) = false := by
      rw [beq_eq_false_iff_ne]
      intro he
      rcases h c hc with hd | hd
      · subst he
        exact absurd hd (by decide)
      · rw [hd] at he
        exact absurd he (by decide)
    unfold simpleM phoneP3 litK
    have hpre : (cs "(").isPrefixOf (c :: t2) = false := by
      show (('(' == c) && List.isPrefixOf [] t2) = false
      rw [hne]
      rfl
    rw [if_neg (by rw [hpre]; exact Bool.false_ne_true)]
    rfl

/-- C3 counterexample: 12-34-5678 is a grouped-hyphen phone match whose
shape (2-2-4) is NOT exactly "1–2 digits - 1–2 digits - 1–2 digits" as a
whole, yet the guard — a prefix `re.match`, not a fullmatch — accepts it,
so the match is left unredacted and unlogged, refuting the claimed "iff". -/
theorem C3_counterexample :
    remove_phone_numbers (cs "12-34-5678") = (cs "12-34-5678", []) ∧
      dateShapeExact (cs "12-34-5678") = false := by
  constructor
  · decide
  · decide

/-- C3 (amended): a grouped-hyphen match a-b-g (group lengths 2–4, 2–4, 4)
is left unredacted and unlogged exactly when the guard's PREFIX shape
d{1,2}-d{1,2}-d{1,2} matches, i.e. when the first two groups have exactly
2 digits each; every other grouped match is replaced by the phone
placeholder and logged.  Further, 2023-4-15 is consumed by the earlier
date pass (no phone event is ever logged for it), and 1-2-3 alone is not
redacted by anything. -/
theorem C3_phone_guard (a b g : List Char)
    (ha : ∀ ch ∈ a, isDigitCh ch = true)
    (hb : ∀ ch ∈ b, isDigitCh ch = true)
    (hg : ∀ ch ∈ g, isDigitCh ch = true)
    (ha2 : 2 ≤ a.length) (ha4 : a.length ≤ 4)
    (hb2 : 2 ≤ b.length) (hb4 : b.length ≤ 4) (hg4 : g.length = 4) :
    (a.length = 2 ∧ b.length = 2 →
      remove_phone_numbers (a ++ ('-' :: (b ++ ('-' :: g)))) =
        (a ++ ('-' :: (b ++ ('-' :: g))), [])) ∧
    (¬(a.length = 2 ∧ b.length = 2) →
      remove_phone_numbers (a ++ ('-' :: (b ++ ('-' :: g)))) =
        (cs "[電話番号]",
          [("電話番号", String.mk (a ++ ('-' :: (b ++ ('-' :: g)))))])) ∧
    clean_text (cs "2023-4-15") =
      (cs "[生年月日]", [("生年月日", "2023-4-15")]) ∧
    clean_text (cs "1-2-3") = (cs "1-2-3", []) := by
  have hne : (a ++ ('-' :: (b ++ ('-' :: g)))) ≠ [] := by
    intro hcontra
    have := congrArg List.length hcontra
    simp at this
  have hmem : ∀ c ∈ (a ++ ('-' :: (b ++ ('-' :: g)))),
      isDigitCh c = true ∨ c = '-' := by
    intro c hcmem
    rcases List.mem_append.mp hcmem with h | h
    · exact Or.inl (ha c h)
    · rcases h with _ | ⟨_, h⟩
      · exact Or.inr rfl
      · rcases List.mem_append.mp h with h2 | h2
        · exact Or.inl (hb c h2)
        · rcases h2 with _ | ⟨_, h3⟩
          · exact Or.inr rfl
          · exact Or.inl (hg c h3)
  have hp1 : reSub (simpleM phoneP1) phoneRf
      (a ++ ('-' :: (b ++ ('-' :: g)))) =
      phoneRf (a ++ ('-' :: (b ++ ('-' :: g)))) () := by
    apply reSub_full_match2 hne
    unfold simpleM
    rw [phoneP1_full ha hb hg ha2 ha4 hb2 hb4 hg4]
    rfl
  have hguard := dateLikeGuard_eval ha hb hg ha2 ha4 hb2 hb4 (by omega)
  refine ⟨?_, ?_, by decide, by decide⟩
  · rintro ⟨hla, hlb⟩
    have hg_true : dateLikeGuard (a ++ ('-' :: (b ++ ('-' :: g)))) = true := by
      rw [hguard, hla, hlb]
      decide
    have hrf : phoneRf (a ++ ('-' :: (b ++ ('-' :: g)))) () =
        (a ++ ('-' :: (b ++ ('-' :: g))), []) := by
      unfold phoneRf
      rw [if_pos hg_true]
    unfold remove_phone_numbers
    rw [hp1, hrf]
    dsimp only
    rw [pass2_id (phone_input_run_bound ha hb ha4 hb4 hg4)]
    dsimp only
    rw [pass3_id hmem]
    simp
  · intro hnot
    have hg_false : dateLikeGuard (a ++ ('-' :: (b ++ ('-' :: g)))) = false := by
      rw [hguard]
      by_cases hla : a.length = 2
      · by_cases hlb : b.length = 2
        · exact absurd ⟨hla, hlb⟩ hnot
        · simp [hlb]
      · simp [hla]
    have hrf : phoneRf (a ++ ('-' :: (b ++ ('-' :: g)))) () =
        (cs "[電話番号]",
          [("電話番号", String.mk (a ++ ('-' :: (b ++ ('-' :: g)))))]) := by
      unfold phoneRf
      rw [if_neg (by rw [hg_false]; exact Bool.false_ne_true)]
    unfold remove_phone_numbers
    rw [hp1, hrf]
    dsimp only
    have hpl2 : reSub (simpleM phoneP2) phoneRf (cs "[電話番号]") =
        (cs "[電話番号]", []) := by decide
    have hpl3 : reSub (simpleM phoneP3) phoneRf (cs "[電話番号]") =
        (cs "[電話番号]", []) := by decide
    rw [hpl2]
    dsimp only
    rw [hpl3]
    simp

/-- Witness for C3: 03-1234-5678 (2-4-4) is replaced and logged; on the
guard-passing 12-34-5678 (2-2-4) nothing is redacted or logged. -/
theorem C3_witness :
    remove_phone_numbers (cs "03" ++ ('-' :: (cs "1234" ++ ('-' :: cs "5678")))) =
        (cs "[電話番号]", [("電話番号",
          String.mk (cs "03" ++ ('-' :: (cs "1234" ++ ('-' :: cs "5678")))))]) ∧
      remove_phone_numbers (cs "12" ++ ('-' :: (cs "34" ++ ('-' :: cs "5678")))) =
        (cs "12" ++ ('-' :: (cs "34" ++ ('-' :: cs "5678"))), []) :=
  ⟨(C3_phone_guard (cs "03") (cs "1234") (cs "5678") (by decide) (by decide)
      (by decide) (by decide) (by decide) (by decide) (by decide)
      (by decide)).2.1 (by decide),
    (C3_phone_guard (cs "12") (cs "34") (cs "5678") (by decide) (by decide)
      (by decide) (by decide) (by decide) (by decide) (by decide)
      (by decide)).1 (by decide)⟩

/-- Witness for C6 at concrete example values. -/
theorem C6_witness :
    get_summary_report [("電話番号", "a1"), ("電話番号", "a2"),
        ("電話番号", "a3"), ("電話番号", "a4"), ("電話番号", "a5")] =
      String.intercalate "\n" ["=== 削除した個人情報 ===", "\n電話番号: 5件",
        "  1. " ++ "a1", "  2. " ++ "a2", "  3. " ++ "a3", "  ... 他 2件"] :=
  C6_summary_report.2.1 "a1" "a2" "a3" "a4" "a5"
